import Mathlib

/-!
Verification development for the RAMP protocol parser/validator/formatter
(`ramp.py`).  The Python source is shallowly embedded: each class method is
translated to a total Lean function; Python exceptions that the source
swallows (IndexError during rule evaluation or field formatting) are
modelled with `Option`; `re.match` of the concrete anchored patterns is
translated to explicit character-list matchers that reproduce Python's
semantics, including the fact that `$` also matches just before a single
trailing newline and that `.` does not match a newline while a negated
class such as `[^#]` does.  `str.upper` is modelled by `Char.toUpper`
applied characterwise, which agrees with Python on the ASCII range.
-/

namespace Ramp

/-- Model of Python `str.upper()` (characterwise ASCII uppercasing, as in
`ramp_string.upper()` at the start of `RAMPValidator.validate`). -/
def pyUpper (s : String) : String :=
  String.mk (s.data.map Char.toUpper)

/-- Model of Python `str.split(sep)` for a one-character separator, as used
by `node.params.split('/')`.  Like Python, splitting the empty string gives
`[""]` and a trailing separator yields a trailing empty field. -/
def pySplitAux (sep : Char) : List Char → List Char → List String
  | [], acc => [String.mk acc.reverse]
  | c :: rest, acc =>
    if c = sep then String.mk acc.reverse :: pySplitAux sep rest []
    else pySplitAux sep rest (c :: acc)

def pySplit (sep : Char) (s : String) : List String :=
  pySplitAux sep s.data []

/-- `RAMPNode` dataclass: is_person, layer, protocol, optional params,
optional meta. -/
structure RAMPNode where
  is_person : Bool
  layer : Char
  protocol : Char
  params : Option String := none
  meta : Option String := none
deriving DecidableEq, Repr

/-- `RAMPNode.to_uri`: serialize the node back to RAMP URI form.  The
Python code appends `:params` / `#meta` only when the field is truthy,
i.e. present and nonempty. -/
def RAMPNode.to_uri (n : RAMPNode) : String :=
  let base := (if n.is_person then ("~") else ("")) ++
    String.singleton n.layer ++ "/" ++ String.singleton n.protocol
  let base2 := match n.params with
    | some ps => if ps = "" then base else base ++ ":" ++ ps
    | none => base
  match n.meta with
  | some m => if m = "" then base2 else base2 ++ "#" ++ m
  | none => base2

/-! ### Character classes used by the validation patterns -/

def isUpperAlpha (c : Char) : Bool := 'A' ≤ c && c ≤ 'Z'

def isDigitC (c : Char) : Bool := '0' ≤ c && c ≤ '9'

def isHexC (c : Char) : Bool :=
  isDigitC c || ('A' ≤ c && c ≤ 'F') || ('a' ≤ c && c ≤ 'f')

/-- `[a-z2-7]`: lowercase base32 alphabet of the ONION pattern. -/
def isB32 (c : Char) : Bool :=
  ('a' ≤ c && c ≤ 'z') || ('2' ≤ c && c ≤ '7')

/-- `[a-zA-Z0-9_.-]` of the USER pattern. -/
def isUserChar (c : Char) : Bool :=
  ('a' ≤ c && c ≤ 'z') || ('A' ≤ c && c ≤ 'Z') || isDigitC c ||
    c = '_' || c = '.' || c = '-'

/-- `[a-zA-Z0-9.-]` of the HOST pattern. -/
def isHostChar (c : Char) : Bool :=
  ('a' ≤ c && c ≤ 'z') || ('A' ≤ c && c ≤ 'Z') || isDigitC c ||
    c = '.' || c = '-'

/-! ### Python `re.match('^B$', s)` for the concrete anchored patterns.

None of the pattern bodies below can consume a newline, so such a match
succeeds exactly when the body matches the whole string, or the whole
string minus a single trailing newline (Python `$` also matches just
before a final newline). -/

def pyAnchored (core : List Char → Bool) (s : String) : Bool :=
  core s.data ||
    (s.data.getLast? = some '\n' && core s.data.dropLast)

/-- Body of the inline LoRa frequency pattern `\d+\.\d{3}`. -/
def freqCore (l : List Char) : Bool :=
  let d1 := l.takeWhile isDigitC
  let rest := l.dropWhile isDigitC
  decide (d1 ≠ []) &&
    (match rest with
     | '.' :: t => t.length = 3 && t.all isDigitC
     | _ => false)

/-- Body of CHAN `\d{1,3}`. -/
def chanCore (l : List Char) : Bool :=
  decide (1 ≤ l.length) && decide (l.length ≤ 3) && l.all isDigitC

/-- Body of MASK `\d{1,2}`. -/
def maskCore (l : List Char) : Bool :=
  decide (1 ≤ l.length) && decide (l.length ≤ 2) && l.all isDigitC

/-- Body of ASN `\d{1,10}`. -/
def asnCore (l : List Char) : Bool :=
  decide (1 ≤ l.length) && decide (l.length ≤ 10) && l.all isDigitC

/-- Body of ONION `[a-z2-7]{56}\.onion`. -/
def onionCore (l : List Char) : Bool :=
  decide (l.length = 62) && (l.take 56).all isB32 &&
    decide (l.drop 56 = ['.', 'o', 'n', 'i', 'o', 'n'])

/-- `([0-9A-Fa-f]{2}[:-]){n}` followed by a final hex pair (MAC body). -/
def macGroups : Nat → List Char → Bool
  | 0, l =>
    match l with
    | [a, b] => isHexC a && isHexC b
    | _ => false
  | n + 1, l =>
    match l with
    | a :: b :: c :: rest =>
      isHexC a && isHexC b && (c = ':' || c = '-') && macGroups n rest
    | _ => false

/-- Body of MAC `([0-9A-Fa-f]{2}[:-]){5}([0-9A-Fa-f]{2})`. -/
def macCore (l : List Char) : Bool := macGroups 5 l

/-- Body of USER `@?[a-zA-Z0-9_.-]+`. -/
def userCore (l : List Char) : Bool :=
  let t := match l with
    | '@' :: t => t
    | _ => l
  decide (t ≠ []) && t.all isUserChar

/-- Body of HOST `[a-zA-Z0-9.-]+`. -/
def hostCore (l : List Char) : Bool :=
  decide (l ≠ []) && l.all isHostChar

/-! ### The SYNTAX grammar
`^(~)?([A-Z])\/([A-Z])(:[^#]+)?(#.+)?$`, matched with Python `re.match`.
The match is deterministic: each greedy choice either succeeds or the
whole match fails (the alternatives a backtracking engine would try are
provably dead ends for this pattern), so it is embedded as a function. -/

/-- Match `(#.+)?$` against the rest of the string.  Returns the captured
meta (without `#`) on success.  `.` does not match `\n`; `$` accepts the
end of the string or a position just before a single final newline. -/
def matchMetaEnd (rest : List Char) : Option (Option (List Char)) :=
  match rest with
  | [] => some none
  | ['\n'] => some none
  | '#' :: core =>
    let run := core.takeWhile (fun c => c ≠ '\n')
    let after := core.dropWhile (fun c => c ≠ '\n')
    if run = [] then none
    else if after = [] then some (some run)
    else if after = ['\n'] then some (some run)
    else none
  | _ => none

/-- Match `(:[^#]+)?(#.+)?$`.  Returns captured params (without `:`) and
meta (without `#`).  `[^#]` matches any character except `#`, including a
newline. -/
def matchAfterProto (rest : List Char) :
    Option (Option (List Char) × Option (List Char)) :=
  match rest with
  | ':' :: t =>
    let run := t.takeWhile (fun c => c ≠ '#')
    let after := t.dropWhile (fun c => c ≠ '#')
    if run = [] then none
    else
      match matchMetaEnd after with
      | some m => some (some run, m)
      | none => none
  | _ =>
    match matchMetaEnd rest with
    | some m => some (none, m)
    | none => none

def grammarMatchCore (tl : Bool) (cs1 : List Char) :
    Option (Bool × Char × Char × Option (List Char) × Option (List Char)) :=
  match cs1 with
  | l :: '/' :: p :: rest =>
    if isUpperAlpha l && isUpperAlpha p then
      match matchAfterProto rest with
      | some (ps, m) => some (tl, l, p, ps, m)
      | none => none
    else none
  | _ => none

/-- Full match of the SYNTAX pattern against a character list; returns the
five capture groups (`~` presence, layer, protocol, params, meta). -/
def grammarMatch (cs : List Char) :
    Option (Bool × Char × Char × Option (List Char) × Option (List Char)) :=
  match cs with
  | '~' :: t => grammarMatchCore true t
  | _ => grammarMatchCore false cs

/-! ### RAMPValidator -/

namespace RAMPValidator

/-- Per-protocol membership lists used by the LoRa rule:
`map(str, range(7, 13))`, the bandwidth list and `map(str, range(5, 9))`. -/
def spreadVals : List String := ["7", "8", "9", "10", "11", "12"]

def bwVals : List String := ["125", "250", "500"]

def rateVals : List String := ["5", "6", "7", "8"]

/-- `RAMPValidator._validate_params`.  Python returns `True` when
`node.params` is falsy (absent or empty).  Field accesses `p[i]` that can
raise `IndexError` are modelled by list pattern matches whose failure
yields `false`, mirroring the `except: return False`. -/
def validate_params (n : RAMPNode) : Bool :=
  match n.params with
  | none => true
  | some ps =>
    if ps = "" then true
    else
      let p := pySplit '/' ps
      if n.layer = 'P' then
        if n.protocol = 'L' then
          match p with
          | f0 :: f1 :: f2 :: f3 :: _ =>
            pyAnchored freqCore f0 && spreadVals.contains f1 &&
              bwVals.contains f2 && rateVals.contains f3
          | _ => false
        else if n.protocol = 'B' then
          match p with
          | f0 :: _ => pyAnchored macCore f0
          | _ => false
        else if n.protocol = 'W' || n.protocol = 'Z' then
          match p with
          | f0 :: _ => pyAnchored chanCore f0
          | _ => false
        else true
      else if n.layer = 'N' then
        if n.protocol = 'A' then
          match p with
          | f0 :: _ => pyAnchored asnCore f0
          | _ => false
        else if n.protocol = 'I' || n.protocol = '6' then
          match p with
          | _ :: f1 :: _ => pyAnchored maskCore f1
          | _ => false
        else if n.protocol = 'O' then
          match p with
          | f0 :: _ => pyAnchored onionCore f0
          | _ => false
        else true
      else if n.layer = 'A' then
        if n.protocol = 'M' then
          match p with
          | f0 :: _ => pyAnchored userCore f0
          | _ => false
        else if n.protocol = 'H' || n.protocol = 'G' then
          match p with
          | f0 :: _ => pyAnchored hostCore f0
          | _ => false
        else true
      else true

/-- `RAMPValidator.validate`: uppercase the whole input, match the SYNTAX
pattern, build the node from the capture groups, then check the params. -/
def validate (s : String) : Option RAMPNode :=
  match grammarMatch (pyUpper s).data with
  | none => none
  | some (tl, l, p, ps, m) =>
    let node : RAMPNode :=
      ⟨tl, l, p, ps.map (fun r => String.mk r), m.map (fun r => String.mk r)⟩
    if validate_params node then some node else none

end RAMPValidator

/-! ### RAMPDescriptor -/

namespace RAMPDescriptor

/-- One entry of the `PROTOCOLS` registry: display name, icon, advisory
`needs_qr` flag (defaulting to false via `proto.get('needs_qr', False)`),
and the `format` closure.  The closure can raise `IndexError` on short
field lists; this is modelled by `Option`. -/
structure ProtoInfo where
  name : String
  icon : String
  needs_qr : Bool
  fieldFormat : List String → Option (List (String × String))

/-- The `PROTOCOLS` table combined with the two-level `.get` lookup of
`get_info` (a miss at either level yields `none`). -/
def registryLookup (layer protocol : Char) : Option ProtoInfo :=
  match layer, protocol with
  | 'P', 'L' => some ⟨"LoRa", "📡", false, fun p =>
      match p with
      | a :: b :: c :: d :: _ =>
        some [("freq", a ++ " MHz"), ("spread", b), ("bw", c ++ " kHz"),
          ("rate", "4/" ++ d)]
      | _ => none⟩
  | 'P', 'R' => some ⟨"Radio", "📻", false, fun p =>
      match p with
      | a :: b :: _ => some [("freq", a), ("mode", b)]
      | _ => none⟩
  | 'P', 'W' => some ⟨"WiFi", "📶", false, fun p =>
      match p with
      | a :: b :: _ => some [("ch", a), ("bw", b ++ " MHz")]
      | _ => none⟩
  | 'P', 'B' => some ⟨"BLE", "🦷", false, fun p =>
      match p with
      | a :: b :: _ => some [("mac", a), ("type", b)]
      | _ => none⟩
  | 'P', 'Z' => some ⟨"Zigbee", "🕸️", false, fun p =>
      match p with
      | a :: b :: _ => some [("ch", a), ("pan", b)]
      | _ => none⟩
  | 'N', 'A' => some ⟨"AS", "🌐", false, fun p =>
      match p with
      | a :: b :: _ => some [("asn", a), ("prefix", b)]
      | _ => none⟩
  | 'N', 'I' => some ⟨"IPv4", "🌐", false, fun p =>
      match p with
      | a :: b :: _ => some [("net", a), ("mask", b)]
      | _ => none⟩
  | 'N', '6' => some ⟨"IPv6", "🌐", false, fun p =>
      match p with
      | a :: b :: _ => some [("net", a), ("prefix", b)]
      | _ => none⟩
  | 'N', 'O' => some ⟨"Tor", "🧅", true, fun p =>
      match p with
      | a :: b :: rest =>
        some [("onion", a), ("port", b),
          ("type", match rest with | c :: _ => c | [] => "HS")]
      | _ => none⟩
  | 'A', 'M' => some ⟨"Matrix", "💬", true, fun p =>
      match p with
      | a :: b :: _ => some [("user", a), ("room", b)]
      | _ => none⟩
  | 'A', 'I' => some ⟨"IRC", "💬", true, fun p =>
      match p with
      | a :: b :: _ => some [("srv", a), ("ch", b)]
      | _ => none⟩
  | 'A', 'H' => some ⟨"HTTP", "🌐", true, fun p =>
      match p with
      | a :: b :: _ => some [("host", a), ("path", b)]
      | _ => none⟩
  | 'A', 'G' => some ⟨"Gemini", "🚀", true, fun p =>
      match p with
      | a :: b :: _ => some [("host", a), ("path", b)]
      | _ => none⟩
  | _, _ => none

/-- The dictionary returned by `RAMPDescriptor.get_info` on success. -/
structure NodeInfo where
  name : String
  icon : String
  params : List (String × String)
  description : String
  needs_qr : Bool
deriving DecidableEq, Repr

/-- `RAMPDescriptor.get_info`.  A registry miss or an exception inside the
`format` closure yields `{}`, modelled as `none`.  No registry entry
defines a `description`, so `proto.get('description', '')` is always the
empty string. -/
def get_info (n : RAMPNode) : Option NodeInfo :=
  match registryLookup n.layer n.protocol with
  | none => none
  | some proto =>
    let params := match n.params with
      | some ps => if ps = "" then [] else pySplit '/' ps
      | none => []
    match proto.fieldFormat params with
    | none => none
    | some fps => some ⟨proto.name, proto.icon, fps, "", proto.needs_qr⟩

end RAMPDescriptor

/-! ### RAMPFormatter -/

namespace RAMPFormatter

/-- Python `"\n".join(lines)`. -/
def joinLines : List String → String
  | [] => ""
  | [a] => a
  | a :: b :: rest => a ++ "\n" ++ joinLines (b :: rest)

/-- `RAMPFormatter.format`: descriptive text, or the raw URI when
`get_info` produced nothing. -/
def format (n : RAMPNode) : String :=
  match RAMPDescriptor.get_info n with
  | none => n.to_uri
  | some info =>
    let lines := (info.name ++ " (" ++ info.description ++ ")") ::
      info.params.map (fun kv => kv.1 ++ ": " ++ kv.2)
    let lines2 := lines ++
      (match n.meta with
       | some m => if m = "" then [] else ["ID: " ++ m]
       | none => [])
    joinLines lines2

/-- The content lines of the ASCII label (icon header, field lines, and
the meta line when `node.meta` is truthy). -/
def asciiLines (n : RAMPNode) (info : RAMPDescriptor.NodeInfo) :
    List String :=
  ((info.icon ++ " " ++ info.name) ::
    info.params.map (fun kv => kv.1 ++ ": " ++ kv.2)) ++
    (match n.meta with
     | some m => if m = "" then [] else ["ID: " ++ m]
     | none => [])

/-- Python `max(len(line) for line in lines)` (the list is never empty:
it always holds the icon header). -/
def maxLen (ls : List String) : Nat :=
  (ls.map String.length).foldl Nat.max 0

/-- `RAMPFormatter.format_ascii`: bordered ASCII label, or the raw URI
when `get_info` produced nothing. -/
def format_ascii (n : RAMPNode) : String :=
  match RAMPDescriptor.get_info n with
  | none => n.to_uri
  | some info =>
    let lines := asciiLines n info
    let width := maxLen lines + 4
    let border := "┌" ++ String.mk (List.replicate width '─') ++ "┐"
    let footer := "└" ++ String.mk (List.replicate width '─') ++ "┘"
    let rows := lines.map (fun line =>
      let padding := String.mk (List.replicate ((width - line.length) / 2) ' ')
      "│" ++ padding ++ line ++ padding ++ "│")
    joinLines (border :: (rows ++ [footer]))

end RAMPFormatter

/-! ### Soundness of the grammar matcher: a successful match decomposes the
input into the matched pieces, possibly followed by one unconsumed trailing
newline (the position where Python `$` may match early). -/

/-- The characters consumed by the `(:[^#]+)?` group. -/
def paramsChars : Option (List Char) → List Char
  | none => []
  | some r => ':' :: r

/-- The characters consumed by the `(#.+)?` group. -/
def metaChars : Option (List Char) → List Char
  | none => []
  | some r => '#' :: r

/-- All characters consumed by a successful SYNTAX match. -/
def coreChars (tl : Bool) (l p : Char) (ps m : Option (List Char)) :
    List Char :=
  (if tl then ['~'] else []) ++ l :: '/' :: p :: (paramsChars ps ++ metaChars m)

theorem matchMetaEnd_sound (rest : List Char) (m : Option (List Char))
    (h : matchMetaEnd rest = some m) :
    (rest = metaChars m ∨ rest = metaChars m ++ ['\n']) ∧
      (∀ r, m = some r → r ≠ []) := by
  unfold matchMetaEnd at h
  split at h
  · cases h
    exact ⟨Or.inl rfl, by intro r hr; cases hr⟩
  · cases h
    exact ⟨Or.inr rfl, by intro r hr; cases hr⟩
  · rename_i core
    dsimp only at h
    have hsplit : core.takeWhile (fun c => c ≠ '\n') ++
        core.dropWhile (fun c => c ≠ '\n') = core :=
      List.takeWhile_append_dropWhile _ _
    split at h
    · cases h
    · split at h
      · rename_i hrun hafter
        cases h
        refine ⟨Or.inl ?_, ?_⟩
        · show '#' :: core = '#' :: _
          rw [hafter, List.append_nil] at hsplit
          rw [hsplit]
        · intro r hr
          cases hr
          exact hrun
      · split at h
        · rename_i hrun _ hafter
          cases h
          refine ⟨Or.inr ?_, ?_⟩
          · rw [hafter] at hsplit
            show '#' :: core = ('#' :: _) ++ ['\n']
            rw [List.cons_append, hsplit]
          · intro r hr
            cases hr
            exact hrun
        · cases h
  · cases h

theorem matchAfterProto_sound (rest : List Char)
    (ps m : Option (List Char)) (h : matchAfterProto rest = some (ps, m)) :
    (rest = paramsChars ps ++ metaChars m ∨
      rest = paramsChars ps ++ metaChars m ++ ['\n']) ∧
      (∀ r, ps = some r → r ≠ []) ∧ (∀ r, m = some r → r ≠ []) := by
  unfold matchAfterProto at h
  split at h
  · rename_i t
    dsimp only at h
    have hsplit : t.takeWhile (fun c => c ≠ '#') ++
        t.dropWhile (fun c => c ≠ '#') = t :=
      List.takeWhile_append_dropWhile _ _
    split at h
    · cases h
    · rename_i hrun
      split at h
      · rename_i m' hme
        cases h
        obtain ⟨hdec, hm⟩ := matchMetaEnd_sound _ _ hme
        refine ⟨?_, ?_, hm⟩
        · rcases hdec with hd | hd
          · left
            show ':' :: t = (':' :: _) ++ _
            rw [List.cons_append, ← hd, hsplit]
          · right
            show ':' :: t = (':' :: _) ++ _ ++ ['\n']
            rw [List.cons_append, List.cons_append, List.append_assoc,
              ← hd, hsplit]
        · intro r hr
          cases hr
          exact hrun
      · cases h
  · rename_i hnc
    split at h
    · rename_i m' hme
      cases h
      obtain ⟨hdec, hm⟩ := matchMetaEnd_sound _ _ hme
      refine ⟨?_, ?_, hm⟩
      · simpa [paramsChars] using hdec
      · intro r hr
        cases hr
    · cases h

theorem grammarMatchCore_sound (tl : Bool) (cs1 : List Char)
    (tl' : Bool) (l p : Char) (ps m : Option (List Char))
    (h : grammarMatchCore tl cs1 = some (tl', l, p, ps, m)) :
    tl' = tl ∧
      (cs1 = l :: '/' :: p :: (paramsChars ps ++ metaChars m) ∨
        cs1 = l :: '/' :: p :: (paramsChars ps ++ metaChars m) ++ ['\n']) ∧
      isUpperAlpha l = true ∧ isUpperAlpha p = true ∧
      (∀ r, ps = some r → r ≠ []) ∧ (∀ r, m = some r → r ≠ []) := by
  unfold grammarMatchCore at h
  split at h
  · rename_i l0 p0 rest
    split at h
    · rename_i hup
      split at h
      · rename_i ps0 m0 hap
        cases h
        obtain ⟨hdec, hps, hm⟩ := matchAfterProto_sound _ _ _ hap
        have hup1 : isUpperAlpha l = true := by
          have := hup
          exact (Bool.and_eq_true _ _).mp this |>.1
        have hup2 : isUpperAlpha p = true := by
          exact (Bool.and_eq_true _ _).mp hup |>.2
        refine ⟨rfl, ?_, hup1, hup2, hps, hm⟩
        rcases hdec with hd | hd
        · left
          rw [hd]
        · right
          rw [hd]
          rfl
      · cases h
    · cases h
  · cases h

theorem grammarMatch_sound (cs : List Char)
    (tl : Bool) (l p : Char) (ps m : Option (List Char))
    (h : grammarMatch cs = some (tl, l, p, ps, m)) :
    (cs = coreChars tl l p ps m ∨ cs = coreChars tl l p ps m ++ ['\n']) ∧
      isUpperAlpha l = true ∧ isUpperAlpha p = true ∧
      (∀ r, ps = some r → r ≠ []) ∧ (∀ r, m = some r → r ≠ []) := by
  unfold grammarMatch at h
  split at h
  · rename_i t
    obtain ⟨htl, hdec, h3, h4, h5, h6⟩ := grammarMatchCore_sound _ _ _ _ _ _ _ h
    subst htl
    refine ⟨?_, h3, h4, h5, h6⟩
    unfold coreChars
    rcases hdec with hd | hd
    · left
      rw [hd]
      rfl
    · right
      rw [hd]
      rfl
  · rename_i hnt
    obtain ⟨htl, hdec, h3, h4, h5, h6⟩ := grammarMatchCore_sound _ _ _ _ _ _ _ h
    subst htl
    refine ⟨?_, h3, h4, h5, h6⟩
    unfold coreChars
    rcases hdec with hd | hd
    · left
      rw [hd]
      rfl
    · right
      rw [hd]
      rfl

/-! ### Serialization inverts the grammar decomposition -/

theorem mk_ne_empty (r : List Char) (hr : r ≠ []) : String.mk r ≠ "" := by
  intro hh
  exact hr (congrArg String.data hh)

/-- `to_uri` of a node built from the capture groups reproduces exactly the
consumed characters. -/
theorem to_uri_data (tl : Bool) (l p : Char) (ps m : Option (List Char))
    (hps : ∀ r, ps = some r → r ≠ []) (hm : ∀ r, m = some r → r ≠ []) :
    (RAMPNode.to_uri ⟨tl, l, p, ps.map (fun r => String.mk r),
      m.map (fun r => String.mk r)⟩).data = coreChars tl l p ps m := by
  cases ps with
  | none =>
    cases m with
    | none =>
      cases tl <;>
        simp [RAMPNode.to_uri, coreChars, paramsChars, metaChars,
          String.data_append, String.singleton]
    | some rm =>
      have hne : String.mk rm ≠ "" := mk_ne_empty rm (hm rm rfl)
      cases tl <;>
        simp [RAMPNode.to_uri, coreChars, paramsChars, metaChars, hne,
          String.data_append, String.singleton]
  | some rp =>
    have hnep : String.mk rp ≠ "" := mk_ne_empty rp (hps rp rfl)
    cases m with
    | none =>
      cases tl <;>
        simp [RAMPNode.to_uri, coreChars, paramsChars, metaChars, hnep,
          String.data_append, String.singleton]
    | some rm =>
      have hne : String.mk rm ≠ "" := mk_ne_empty rm (hm rm rfl)
      cases tl <;>
        simp [RAMPNode.to_uri, coreChars, paramsChars, metaChars, hnep, hne,
          String.data_append, String.singleton]

/-! ### Facts about the uppercasing step -/

theorem toNat_ofNat_lt (n : Nat) (h : n < 55296) : (Char.ofNat n).toNat = n := by
  have hv : n.isValidChar := Or.inl h
  unfold Char.ofNat
  rw [dif_pos hv]
  rfl

/-- Uppercasing maps no character to a newline except the newline itself. -/
theorem toUpper_eq_nl (c : Char) (h : Char.toUpper c = '\n') : c = '\n' := by
  unfold Char.toUpper at h
  dsimp only at h
  split at h
  · exfalso
    rename_i hc
    have h10 : (Char.ofNat (c.toNat - 32)).toNat = c.toNat - 32 :=
      toNat_ofNat_lt _ (by omega)
    have h2 := congrArg Char.toNat h
    rw [h10] at h2
    have h3 : c.toNat - 32 = 10 := h2
    omega
  · exact h

/-- The output of `Char.toUpper` is never an ASCII lowercase letter. -/
theorem toUpper_not_lower (c : Char) :
    ¬ (97 ≤ (Char.toUpper c).toNat ∧ (Char.toUpper c).toNat ≤ 122) := by
  unfold Char.toUpper
  dsimp only
  split
  · rename_i hc
    have h10 : (Char.ofNat (c.toNat - 32)).toNat = c.toNat - 32 :=
      toNat_ofNat_lt _ (by omega)
    rw [h10]
    omega
  · rename_i hc
    omega

theorem getLast?_map (f : Char → Char) (l : List Char) :
    (l.map f).getLast? = l.getLast?.map f := by
  induction l with
  | nil => rfl
  | cons a t ih =>
    cases t with
    | nil => rfl
    | cons b t2 =>
      simpa using ih

/-- A successful `validate` comes from a successful grammar match on the
uppercased input, with the returned node built from the capture groups and
passing the parameter check. -/
theorem validate_eq (s : String) (n : RAMPNode)
    (h : RAMPValidator.validate s = some n) :
    ∃ tl l p ps m, grammarMatch (pyUpper s).data = some (tl, l, p, ps, m) ∧
      n = ⟨tl, l, p, ps.map (fun r => String.mk r),
        m.map (fun r => String.mk r)⟩ ∧
      RAMPValidator.validate_params n = true := by
  unfold RAMPValidator.validate at h
  split at h
  · cases h
  · rename_i tl l p ps m hg
    dsimp only at h
    split at h
    · rename_i hv
      cases h
      exact ⟨tl, l, p, ps, m, hg, rfl, hv⟩
    · cases h

/-! ### Claim C1 -/

/-- Claim C1 (amended): for every string `s` accepted by the grammar (with
params passing validation, i.e. `validate s` returns a node) that does not
end with a newline character, serializing the node returns the normalized
input: `(validate s).to_uri = pyUpper s`.  (The amendment excludes inputs
ending in a newline: Python `$` can match just before a final `\n`, which
is then accepted but dropped by `to_uri`.) -/
theorem c1_round_trip (s : String) (n : RAMPNode)
    (h : RAMPValidator.validate s = some n)
    (hnl : s.data.getLast? ≠ some '\n') :
    n.to_uri = pyUpper s := by
  obtain ⟨tl, l, p, ps, m, hg, hn, hv⟩ := validate_eq s n h
  obtain ⟨hdec, _, _, hps, hm⟩ := grammarMatch_sound _ _ _ _ _ _ hg
  have hu : (pyUpper s).data.getLast? ≠ some '\n' := by
    show (s.data.map Char.toUpper).getLast? ≠ some '\n'
    rw [getLast?_map]
    intro hc
    cases hl : s.data.getLast? with
    | none => rw [hl] at hc; cases hc
    | some c =>
      rw [hl] at hc
      have hcu : Char.toUpper c = '\n' := by
        injection hc
      apply hnl
      rw [hl, toUpper_eq_nl c hcu]
  rcases hdec with hd | hd
  · subst hn
    apply String.ext
    rw [to_uri_data tl l p ps m hps hm, hd]
  · exfalso
    apply hu
    rw [hd]
    exact List.getLast?_concat _

/-- Claim C1 counterexample: `"Q/X\n"` is accepted by the grammar (and has
no params to validate), but serializing the node gives `"Q/X"`, not the
uppercased input `"Q/X\n"`: the round trip fails as originally stated. -/
theorem c1_counterexample :
    RAMPValidator.validate ("Q/X\n") = some ⟨false, 'Q', 'X', none, none⟩ ∧
      RAMPNode.to_uri ⟨false, 'Q', 'X', none, none⟩ ≠ pyUpper ("Q/X\n") := by
  constructor
  · decide
  · decide

/-- Witness for C1: a concrete lowercase input whose accepted node
serializes back to the uppercased input. -/
theorem c1_witness :
    RAMPNode.to_uri ⟨false, 'P', 'L', some ("868.100/7/125/5"),
      some ("NODE01")⟩ = pyUpper ("p/l:868.100/7/125/5#node01") :=
  c1_round_trip ("p/l:868.100/7/125/5#node01") _ (by decide) (by decide)

/-! ### Claim C9 -/

/-- Claim C9 (amended): the params capture of the SYNTAX pattern is
`(:[^#]+)?`, which requires at least one non-`#` character after the
colon, so an input whose `:` is immediately followed by `#` or by the end
of the string (such as `"P/L:"` or `"P/L:#M"`) does not match the grammar
and `validate` returns `None`; consequently a parsed node's params is
never `Some("")` — it is either absent or nonempty. -/
theorem c9_no_empty_params :
    RAMPValidator.validate ("P/L:") = none ∧
      RAMPValidator.validate ("P/L:#M") = none ∧
      ∀ s n, RAMPValidator.validate s = some n → n.params ≠ some ("") := by
  refine ⟨by decide, by decide, ?_⟩
  intro s n h hps
  obtain ⟨tl, l, p, ps, m, hg, hn, _⟩ := validate_eq s n h
  obtain ⟨_, _, _, hpsne, _⟩ := grammarMatch_sound _ _ _ _ _ _ hg
  subst hn
  have : ps.map (fun r => String.mk r) = some ("") := hps
  obtain ⟨r, hr, hmk⟩ := Option.map_eq_some'.mp this
  exact mk_ne_empty r (hpsne r hr) hmk

/-- Claim C9 counterexample: `"P/L:"` (a colon immediately followed by the
end of the string) is rejected outright — the parser does not yield a node
with params `Some("")`. -/
theorem c9_counterexample : RAMPValidator.validate ("P/L:") = none := by
  decide

/-- Witness for C9: the node accepted for `"P/W:6"` has nonempty params. -/
theorem c9_witness :
    (⟨false, 'P', 'W', some ("6"), none⟩ : RAMPNode).params ≠ some ("") :=
  c9_no_empty_params.2.2 ("P/W:6") ⟨false, 'P', 'W', some ("6"), none⟩
    (by decide)

/-! ### Claim C4 -/

/-- Claim C4: `validate` always returns an optional result — `None` or a
node whose whole parameter list passed `_validate_params` (no partial
success, no distinct error kind).  In particular, when a recognized rule
accesses a field index that is out of range (e.g. a LoRa node with fewer
than four fields), rule evaluation yields `False` — the swallowed
`IndexError` — and the caller receives `None`, as on the concrete input
`"P/L:868.100/7"`. -/
theorem c4_result_discipline :
    (∀ s : String, RAMPValidator.validate s = none ∨
      ∃ n, RAMPValidator.validate s = some n ∧
        RAMPValidator.validate_params n = true) ∧
      (∀ (b : Bool) (m : Option String) (ps : String), ps ≠ "" →
        (pySplit '/' ps).length < 4 →
        RAMPValidator.validate_params ⟨b, 'P', 'L', some ps, m⟩ = false) ∧
      RAMPValidator.validate ("P/L:868.100/7") = none := by
  refine ⟨?_, ?_, by decide⟩
  · intro s
    unfold RAMPValidator.validate
    split
    · exact Or.inl rfl
    · rename_i tl l p ps m hg
      dsimp only
      split
      · rename_i hv
        exact Or.inr ⟨_, rfl, hv⟩
      · exact Or.inl rfl
  · intro b m ps hne hlen
    unfold RAMPValidator.validate_params
    dsimp only
    rw [if_neg hne, if_pos rfl, if_pos rfl]
    generalize hp : pySplit '/' ps = pl at hlen
    rcases pl with _ | ⟨a, _ | ⟨b2, _ | ⟨c, _ | ⟨d, rest⟩⟩⟩⟩
    · rfl
    · rfl
    · rfl
    · rfl
    · exfalso
      simp [List.length] at hlen
      omega

/-- Witness for C4: a LoRa node with only two fields fails rule
evaluation. -/
theorem c4_witness :
    RAMPValidator.validate_params
      ⟨false, 'P', 'L', some ("868.100/7"), none⟩ = false :=
  c4_result_discipline.2.1 false none ("868.100/7") (by decide) (by decide)

/-! ### Claim C5 -/

/-- Claim C5 (amended): for every LoRa node (layer `'P'`, protocol `'L'`)
with nonempty params, rule evaluation succeeds exactly when the split
fields start with four fields such that field 0 matches `\d+\.\d{3}` under
Python `re.match` semantics (i.e. the body matches the whole field or the
field minus one trailing newline — the Python `$` artifact), field 1 is
one of `"7"`..`"12"`, field 2 is one of `"125"`, `"250"`, `"500"`, and
field 3 is one of `"5"`..`"8"`; in particular `"P/L:868.100/13/125/5"` is
rejected because spreading-factor `13` lies outside 7–12. -/
theorem c5_lora_rules :
    (∀ (b : Bool) (m : Option String) (ps : String), ps ≠ "" →
      (RAMPValidator.validate_params ⟨b, 'P', 'L', some ps, m⟩ = true ↔
        ∃ f0 f1 f2 f3 rest, pySplit '/' ps = f0 :: f1 :: f2 :: f3 :: rest ∧
          pyAnchored freqCore f0 = true ∧ f1 ∈ RAMPValidator.spreadVals ∧
          f2 ∈ RAMPValidator.bwVals ∧ f3 ∈ RAMPValidator.rateVals)) ∧
      RAMPValidator.validate ("P/L:868.100/13/125/5") = none := by
  refine ⟨?_, by decide⟩
  intro b m ps hne
  unfold RAMPValidator.validate_params
  dsimp only
  rw [if_neg hne, if_pos rfl, if_pos rfl]
  generalize hp : pySplit '/' ps = pl
  rcases pl with _ | ⟨a, _ | ⟨b2, _ | ⟨c, _ | ⟨d, rest⟩⟩⟩⟩
  · simp
  · simp
  · simp
  · simp
  · constructor
    · intro h
      simp only [Bool.and_eq_true] at h
      obtain ⟨⟨⟨h1, h2⟩, h3⟩, h4⟩ := h
      refine ⟨a, b2, c, d, rest, rfl, h1, ?_, ?_, ?_⟩
      · simpa [List.contains, List.elem_iff] using h2
      · simpa [List.contains, List.elem_iff] using h3
      · simpa [List.contains, List.elem_iff] using h4
    · rintro ⟨f0, f1, f2, f3, r2, heq, h1, h2, h3, h4⟩
      obtain ⟨rfl, rfl, rfl, rfl, rfl⟩ :
          a = f0 ∧ b2 = f1 ∧ c = f2 ∧ d = f3 ∧ rest = r2 := by
        injection heq with e1 e2
        injection e2 with e2 e3
        injection e3 with e3 e4
        injection e4 with e4 e5
        exact ⟨e1, e2, e3, e4, e5⟩
      simp only [Bool.and_eq_true]
      refine ⟨⟨⟨h1, ?_⟩, ?_⟩, ?_⟩
      · simpa [List.contains, List.elem_iff] using h2
      · simpa [List.contains, List.elem_iff] using h3
      · simpa [List.contains, List.elem_iff] using h4

/-- Claim C5 counterexample: `"P/L:868.100\n/7/125/5"` is accepted by the
full pipeline although its field 0, `"868.100\n"`, is not in the language
of `\d+\.\d{3}` (the trailing newline slips through Python `$`), so the
original "exactly when field 0 matches `\d+\.\d{3}`" fails. -/
theorem c5_counterexample :
    RAMPValidator.validate ("P/L:868.100\n/7/125/5") =
      some ⟨false, 'P', 'L', some ("868.100\n/7/125/5"), none⟩ ∧
      pySplit '/' ("868.100\n/7/125/5") = ["868.100\n", "7", "125", "5"] ∧
      freqCore ("868.100\n").data = false := by
  refine ⟨by decide, by decide, by decide⟩

/-- Witness for C5: the canonical LoRa parameter list passes rule
evaluation. -/
theorem c5_witness :
    RAMPValidator.validate_params
      ⟨false, 'P', 'L', some ("868.100/7/125/5"), none⟩ = true :=
  (c5_lora_rules.1 false none ("868.100/7/125/5") (by decide)).mpr
    ⟨"868.100", "7", "125", "5", [], by decide, by decide, by decide,
      by decide, by decide⟩

/-! ### Claim C8 -/

/-- Claim C8 (amended): for every WiFi or Zigbee node (layer `'P'`,
protocol `'W'` or `'Z'`) with nonempty params, rule evaluation succeeds
exactly when field 0 matches `^\d{1,3}$` under Python `re.match`
semantics — 1 to 3 decimal digits, optionally followed by one trailing
newline (the Python `$` artifact).  The boundary is a digit-count cap,
not a numeric range: `"P/W:999"` is valid while `"P/W:9999"` is
invalid. -/
theorem c8_chan_rules :
    (∀ (b : Bool) (proto : Char) (m : Option String) (ps : String),
      proto = 'W' ∨ proto = 'Z' → ps ≠ "" →
      (RAMPValidator.validate_params ⟨b, 'P', proto, some ps, m⟩ = true ↔
        ∃ f0 rest, pySplit '/' ps = f0 :: rest ∧
          pyAnchored chanCore f0 = true)) ∧
      RAMPValidator.validate ("P/W:999") =
        some ⟨false, 'P', 'W', some ("999"), none⟩ ∧
      RAMPValidator.validate ("P/W:9999") = none := by
  refine ⟨?_, by decide, by decide⟩
  intro b proto m ps hWZ hne
  have hiff : ∀ pl : List String,
      (match pl with
        | f0 :: _ => pyAnchored chanCore f0
        | _ => false) = true ↔
        ∃ f0 rest, pl = f0 :: rest ∧ pyAnchored chanCore f0 = true := by
    intro pl
    rcases pl with _ | ⟨a, rest⟩
    · simp
    · constructor
      · intro h
        exact ⟨a, rest, rfl, h⟩
      · rintro ⟨f0, r2, heq, h⟩
        obtain ⟨rfl, rfl⟩ : a = f0 ∧ rest = r2 := by
          injection heq with e1 e2
          exact ⟨e1, e2⟩
        exact h
  rcases hWZ with rfl | rfl
  · unfold RAMPValidator.validate_params
    dsimp only
    rw [if_neg hne, if_pos rfl, if_neg (by decide), if_neg (by decide),
      if_pos (by decide)]
    exact hiff _
  · unfold RAMPValidator.validate_params
    dsimp only
    rw [if_neg hne, if_pos rfl, if_neg (by decide), if_neg (by decide),
      if_pos (by decide)]
    exact hiff _

/-- Claim C8 counterexample: `"P/W:999\n"` is accepted by the full
pipeline although its field 0, `"999\n"`, is four characters long and is
not a string of 1–3 decimal digits (the trailing newline slips through
Python `$`), so the original "exactly when field 0 is a string of 1 to 3
decimal digits" fails. -/
theorem c8_counterexample :
    RAMPValidator.validate ("P/W:999\n") =
      some ⟨false, 'P', 'W', some ("999\n"), none⟩ ∧
      chanCore ("999\n").data = false ∧ ("999\n" : String).length = 4 := by
  refine ⟨by decide, by decide, by decide⟩

/-- Witness for C8: the three-digit channel `"999"` passes the WiFi rule. -/
theorem c8_witness :
    RAMPValidator.validate_params
      ⟨false, 'P', 'W', some ("999"), none⟩ = true :=
  (c8_chan_rules.1 false 'W' none ("999") (Or.inl rfl) (by decide)).mpr
    ⟨"999", [], by decide, by decide⟩

/-! ### Claim C6 -/

/-- Claim C6: `"P/L:868.100/7/125/5#NODE01"` validates, and its
descriptive formatting renders the LoRa fields as freq `868.100 MHz`,
spread `7`, bw `125 kHz`, rate `4/5`, followed by the meta line
`ID: NODE01`. -/
theorem c6_lora_format :
    ∃ n, RAMPValidator.validate ("P/L:868.100/7/125/5#NODE01") = some n ∧
      RAMPFormatter.format n =
        "LoRa ()\nfreq: 868.100 MHz\nspread: 7\nbw: 125 kHz\nrate: 4/5\nID: NODE01" := by
  refine ⟨⟨false, 'P', 'L', some ("868.100/7/125/5"), some ("NODE01")⟩,
    by decide, by decide⟩

/-! ### Claim C3 -/

/-- Every `(layer, protocol)` pair the validator has a rule for is present
in the registry, so a registry miss always falls through `_validate_params`
to `return True`. -/
theorem validate_params_of_unknown (b : Bool) (l p : Char)
    (ps m : Option String)
    (hu : RAMPDescriptor.registryLookup l p = none) :
    RAMPValidator.validate_params ⟨b, l, p, ps, m⟩ = true := by
  have notpair : ∀ l0 p0 : Char,
      (RAMPDescriptor.registryLookup l0 p0).isSome = true →
      ¬ (l = l0 ∧ p = p0) := by
    rintro l0 p0 hsome ⟨rfl, rfl⟩
    rw [hu] at hsome
    cases hsome
  unfold RAMPValidator.validate_params
  dsimp only
  cases ps with
  | none => rfl
  | some psv =>
    dsimp only
    by_cases hpe : psv = ""
    · rw [if_pos hpe]
    · rw [if_neg hpe]
      by_cases h1 : l = 'P'
      · have hL : ¬ p = 'L' := fun hp => notpair 'P' 'L' rfl ⟨h1, hp⟩
        have hB : ¬ p = 'B' := fun hp => notpair 'P' 'B' rfl ⟨h1, hp⟩
        have hW : ¬ p = 'W' := fun hp => notpair 'P' 'W' rfl ⟨h1, hp⟩
        have hZ : ¬ p = 'Z' := fun hp => notpair 'P' 'Z' rfl ⟨h1, hp⟩
        rw [if_pos h1, if_neg hL, if_neg hB, if_neg (by simp [hW, hZ])]
      · rw [if_neg h1]
        by_cases h2 : l = 'N'
        · have hA : ¬ p = 'A' := fun hp => notpair 'N' 'A' rfl ⟨h2, hp⟩
          have hI : ¬ p = 'I' := fun hp => notpair 'N' 'I' rfl ⟨h2, hp⟩
          have h6 : ¬ p = '6' := fun hp => notpair 'N' '6' rfl ⟨h2, hp⟩
          have hO : ¬ p = 'O' := fun hp => notpair 'N' 'O' rfl ⟨h2, hp⟩
          rw [if_pos h2, if_neg hA, if_neg (by simp [hI, h6]), if_neg hO]
        · rw [if_neg h2]
          by_cases h3 : l = 'A'
          · have hM : ¬ p = 'M' := fun hp => notpair 'A' 'M' rfl ⟨h3, hp⟩
            have hH : ¬ p = 'H' := fun hp => notpair 'A' 'H' rfl ⟨h3, hp⟩
            have hG : ¬ p = 'G' := fun hp => notpair 'A' 'G' rfl ⟨h3, hp⟩
            rw [if_pos h3, if_neg hM, if_neg (by simp [hH, hG])]
          · rw [if_neg h3]

/-- Claim C3: a well-formed input whose `(layer, protocol)` pair is absent
from the registry still validates (the miss is treated as trivially
valid), and both formatters fall back to the node's canonical URI — no
failure is possible. -/
theorem c3_unknown_fallback (s : String) (tl : Bool) (l p : Char)
    (ps m : Option (List Char))
    (hg : grammarMatch (pyUpper s).data = some (tl, l, p, ps, m))
    (hu : RAMPDescriptor.registryLookup l p = none) :
    ∃ n, RAMPValidator.validate s = some n ∧ n.layer = l ∧
      n.protocol = p ∧ RAMPFormatter.format n = n.to_uri ∧
      RAMPFormatter.format_ascii n = n.to_uri := by
  refine ⟨⟨tl, l, p, ps.map (fun r => String.mk r),
    m.map (fun r => String.mk r)⟩, ?_, rfl, rfl, ?_, ?_⟩
  · unfold RAMPValidator.validate
    rw [hg]
    dsimp only
    rw [if_pos (validate_params_of_unknown _ _ _ _ _ hu)]
  · unfold RAMPFormatter.format
    simp [RAMPDescriptor.get_info, hu]
  · unfold RAMPFormatter.format_ascii
    simp [RAMPDescriptor.get_info, hu]

/-- Witness for C3: the concrete unknown pair `"Q/X"`. -/
theorem c3_witness :
    ∃ n, RAMPValidator.validate ("Q/X") = some n ∧ n.layer = 'Q' ∧
      n.protocol = 'X' ∧ RAMPFormatter.format n = n.to_uri ∧
      RAMPFormatter.format_ascii n = n.to_uri :=
  c3_unknown_fallback ("Q/X") false 'Q' 'X' none none (by rfl) rfl

/-! ### Claim C2 -/

/-- Every character of every field produced by `pySplit` occurs in the
split string (with the accumulator, in the auxiliary form). -/
theorem pySplitAux_subset (sep : Char) (l : List Char) :
    ∀ (acc : List Char) (t : String), t ∈ pySplitAux sep l acc →
      ∀ c ∈ t.data, c ∈ acc.reverse ++ l := by
  induction l with
  | nil =>
    intro acc t ht c hc
    simp [pySplitAux] at ht
    subst ht
    simpa using hc
  | cons a rest ih =>
    intro acc t ht c hc
    by_cases ha : a = sep
    · rw [pySplitAux, if_pos ha, List.mem_cons] at ht
      rcases ht with ht | ht
      · subst ht
        exact List.mem_append_left _ hc
      · have := ih [] t ht c hc
        simp only [List.reverse_nil, List.nil_append] at this
        exact List.mem_append_right _ (List.mem_cons_of_mem _ this)
    · rw [pySplitAux, if_neg ha] at ht
      have := ih (a :: acc) t ht c hc
      simp only [List.reverse_cons, List.append_assoc,
        List.singleton_append] at this
      exact this

theorem pySplit_subset (sep : Char) (s t : String)
    (ht : t ∈ pySplit sep s) : ∀ c ∈ t.data, c ∈ s.data := by
  intro c hc
  have := pySplitAux_subset sep s.data [] t ht c hc
  simpa using this

/-- The params capture of a successful grammar match consists of
characters of the matched string. -/
theorem grammarMatch_params_subset (cs : List Char)
    (tl : Bool) (l p : Char) (r : List Char) (m : Option (List Char))
    (h : grammarMatch cs = some (tl, l, p, some r, m)) :
    ∀ c ∈ r, c ∈ cs := by
  intro c hc
  obtain ⟨hdec, _, _, _, _⟩ := grammarMatch_sound _ _ _ _ _ _ h
  have hcore : c ∈ coreChars tl l p (some r) m := by
    unfold coreChars paramsChars
    refine List.mem_append_right _ ?_
    refine List.mem_cons_of_mem _ ?_
    refine List.mem_cons_of_mem _ ?_
    refine List.mem_cons_of_mem _ ?_
    exact List.mem_append_left _ (List.mem_cons_of_mem _ hc)
  rcases hdec with hd | hd
  · rw [hd]
    exact hcore
  · rw [hd]
    exact List.mem_append_left _ hcore

/-- Claim C2 (code bug): the spec's Tor example is rejected by `validate`,
not accepted.  `validate` uppercases the whole input before the ONION
rule runs, and the ONION pattern `[a-z2-7]{56}\.onion` only accepts
lowercase, so rule evaluation can never succeed through the pipeline: no
validated node at all has layer `'N'`, protocol `'O'` and params.  The
rule itself does accept a genuine lowercase 56-character address when
called directly (second conjunct), which is exactly what the claim
describes — the defect is the uppercasing step.  (The example string is
additionally mislabeled in the spec: its base32 part has 54 characters,
not 56.) -/
theorem c2_tor_onion_rule :
    RAMPValidator.validate
      ("N/O:abcdefghijklmnopqrstuvwxyz234567abcdefghijklmnopqrstuv.onion/9001")
      = none ∧
      RAMPValidator.validate_params ⟨false, 'N', 'O',
        some ("abcdefghijklmnopqrstuvwxyz234567abcdefghijklmnopqrstuvwx.onion/9001"),
        none⟩ = true ∧
      ∀ s n, RAMPValidator.validate s = some n → n.layer = 'N' →
        n.protocol = 'O' → n.params = none := by
  refine ⟨by decide, by decide, ?_⟩
  intro s n h hl hp
  obtain ⟨tl, l, p, ps, m, hg, hn, hv⟩ := validate_eq s n h
  subst hn
  have hl' : l = 'N' := hl
  have hp' : p = 'O' := hp
  subst hl'
  subst hp'
  cases ps with
  | none => rfl
  | some r =>
    exfalso
    obtain ⟨_, _, _, hpsne, _⟩ := grammarMatch_sound _ _ _ _ _ _ hg
    have hr : r ≠ [] := hpsne r rfl
    have hne : String.mk r ≠ "" := mk_ne_empty r hr
    unfold RAMPValidator.validate_params at hv
    dsimp only [Option.map] at hv
    rw [if_neg hne, if_neg (by decide), if_pos rfl, if_neg (by decide),
      if_neg (by decide), if_pos rfl] at hv
    generalize hpl : pySplit '/' (String.mk r) = pl at hv
    cases pl with
    | nil => cases hv
    | cons f0 restl =>
      have hmem : f0 ∈ pySplit '/' (String.mk r) := by
        rw [hpl]
        exact List.mem_cons_self _ _
      have hsub : ∀ c ∈ f0.data, c ∈ r := by
        intro c hc
        have := pySplit_subset '/' (String.mk r) f0 hmem c hc
        simpa using this
      unfold pyAnchored at hv
      rw [Bool.or_eq_true] at hv
      have hO : ∃ dl : List Char, onionCore dl = true ∧
          ∀ c ∈ dl, c ∈ f0.data := by
        rcases hv with hv | hv
        · exact ⟨f0.data, hv, fun c hc => hc⟩
        · rw [Bool.and_eq_true] at hv
          exact ⟨f0.data.dropLast, hv.2,
            fun c hc => List.mem_of_mem_dropLast hc⟩
      obtain ⟨dl, hdl, hdls⟩ := hO
      unfold onionCore at hdl
      rw [Bool.and_eq_true, Bool.and_eq_true] at hdl
      have hdrop : dl.drop 56 = ['.', 'o', 'n', 'i', 'o', 'n'] :=
        of_decide_eq_true hdl.2
      have hoin : ('o' : Char) ∈ dl := by
        refine List.drop_subset 56 dl ?_
        rw [hdrop]
        simp
      have hor : ('o' : Char) ∈ r := hsub _ (hdls _ hoin)
      have hcs : ('o' : Char) ∈ (pyUpper s).data :=
        grammarMatch_params_subset _ _ _ _ _ _ hg 'o' hor
      have hmap : ('o' : Char) ∈ s.data.map Char.toUpper := hcs
      obtain ⟨c, _, hc⟩ := List.mem_map.mp hmap
      have hnl := toUpper_not_lower c
      rw [hc] at hnl
      exact hnl ⟨by decide, by decide⟩

/-- Witness for C2: the paramless Tor node from `"N/O"` indeed has no
params. -/
theorem c2_witness :
    (⟨false, 'N', 'O', none, none⟩ : RAMPNode).params = none :=
  c2_tor_onion_rule.2.2 ("N/O") ⟨false, 'N', 'O', none, none⟩
    (by decide) rfl rfl

/-! ### Structure of `"\n".join` output, for the formatter claims -/

theorem joinLines_head (a : String) (t : List String) :
    ∃ post : List Char,
      (RAMPFormatter.joinLines (a :: t)).data = a.data ++ post ∧
      (post = [] ∨ ∃ post2, post = '\n' :: post2) := by
  cases t with
  | nil =>
    refine ⟨[], ?_, Or.inl rfl⟩
    simp [RAMPFormatter.joinLines]
  | cons b t2 =>
    refine ⟨'\n' :: (RAMPFormatter.joinLines (b :: t2)).data, ?_,
      Or.inr ⟨_, rfl⟩⟩
    show (a ++ "\n" ++ RAMPFormatter.joinLines (b :: t2)).data = _
    rw [String.data_append, String.data_append]
    simp

theorem joinLines_mem (x : String) (ls : List String) (hx : x ∈ ls) :
    ∃ pre post : List Char,
      (RAMPFormatter.joinLines ls).data = pre ++ x.data ++ post := by
  induction ls with
  | nil => cases hx
  | cons a t ih =>
    rw [List.mem_cons] at hx
    rcases hx with rfl | hx
    · obtain ⟨post, hpost, _⟩ := joinLines_head x t
      exact ⟨[], post, by simpa using hpost⟩
    · cases t with
      | nil => cases hx
      | cons b t2 =>
        obtain ⟨pre, post, hpp⟩ := ih hx
        refine ⟨a.data ++ '\n' :: pre, post, ?_⟩
        show (a ++ "\n" ++ RAMPFormatter.joinLines (b :: t2)).data = _
        rw [String.data_append, String.data_append, hpp]
        simp

theorem joinLines_last (x : String) (ls : List String) :
    ∃ pre : List Char,
      (RAMPFormatter.joinLines (ls ++ [x])).data = pre ++ x.data := by
  induction ls with
  | nil =>
    refine ⟨[], ?_⟩
    simp [RAMPFormatter.joinLines]
  | cons a t ih =>
    obtain ⟨pre, hpre⟩ := ih
    cases t with
    | nil =>
      refine ⟨a.data ++ ['\n'], ?_⟩
      show (a ++ "\n" ++ RAMPFormatter.joinLines [x]).data = _
      rw [String.data_append, String.data_append]
      simp [RAMPFormatter.joinLines]
    | cons b t2 =>
      refine ⟨a.data ++ '\n' :: pre, ?_⟩
      show (a ++ "\n" ++ RAMPFormatter.joinLines ((b :: t2) ++ [x])).data = _
      rw [String.data_append, String.data_append, hpre]
      simp

theorem takeWhile_append_all (q : Char → Bool) (xs ys : List Char)
    (h : ∀ c ∈ xs, q c = true) :
    (xs ++ ys).takeWhile q = xs ++ ys.takeWhile q := by
  induction xs with
  | nil => simp
  | cons a t ih =>
    have ha : q a = true := h a (List.mem_cons_self _ _)
    rw [List.cons_append, List.takeWhile_cons, ha]
    simp only [ite_true]
    rw [ih (fun c hc => h c (List.mem_cons_of_mem _ hc))]
    rfl

/-! ### Claim C7 -/

/-- Claim C7: for every recognized node rendered as an ASCII label, both
horizontal border runs have length exactly `maxLen lines + 4` (the
longest content line plus 4), and each content line is wrapped as
`│` + padding + line + padding + `│` with padding of
`(width - line.length) / 2` spaces on each side, using truncating
integer division. -/
theorem c7_ascii_border (n : RAMPNode) (info : RAMPDescriptor.NodeInfo)
    (h : RAMPDescriptor.get_info n = some info) :
    (∃ post, (RAMPFormatter.format_ascii n).data =
      ("┌" ++ String.mk (List.replicate
        (RAMPFormatter.maxLen (RAMPFormatter.asciiLines n info) + 4) '─') ++
        "┐").data ++ post) ∧
      (∃ pre, (RAMPFormatter.format_ascii n).data =
        pre ++ ("└" ++ String.mk (List.replicate
          (RAMPFormatter.maxLen (RAMPFormatter.asciiLines n info) + 4) '─') ++
          "┘").data) ∧
      ∀ line ∈ RAMPFormatter.asciiLines n info, ∃ pre post,
        (RAMPFormatter.format_ascii n).data =
          pre ++ ("│" ++ String.mk (List.replicate
            ((RAMPFormatter.maxLen (RAMPFormatter.asciiLines n info) + 4 -
              line.length) / 2) ' ') ++ line ++
            String.mk (List.replicate
              ((RAMPFormatter.maxLen (RAMPFormatter.asciiLines n info) + 4 -
                line.length) / 2) ' ') ++ "│").data ++ post := by
  unfold RAMPFormatter.format_ascii
  rw [h]
  dsimp only
  refine ⟨?_, ?_, ?_⟩
  · obtain ⟨post, hpost, _⟩ := joinLines_head
      ("┌" ++ String.mk (List.replicate
        (RAMPFormatter.maxLen (RAMPFormatter.asciiLines n info) + 4) '─') ++
        "┐") _
    exact ⟨post, hpost⟩
  · obtain ⟨pre, hpre⟩ := joinLines_last
      ("└" ++ String.mk (List.replicate
        (RAMPFormatter.maxLen (RAMPFormatter.asciiLines n info) + 4) '─') ++
        "┘")
      (("┌" ++ String.mk (List.replicate
        (RAMPFormatter.maxLen (RAMPFormatter.asciiLines n info) + 4) '─') ++
        "┐") :: (RAMPFormatter.asciiLines n info).map _)
    exact ⟨pre, hpre⟩
  · intro line hline
    apply joinLines_mem
    refine List.mem_cons_of_mem _ ?_
    refine List.mem_append_left _ ?_
    exact List.mem_map_of_mem _ hline

/-- Witness for C7: the top border of the ASCII label for a concrete WiFi
node. -/
theorem c7_witness :
    ∃ post, (RAMPFormatter.format_ascii
      ⟨false, 'P', 'W', some ("6/40"), none⟩).data =
      ("┌" ++ String.mk (List.replicate
        (RAMPFormatter.maxLen (RAMPFormatter.asciiLines
          ⟨false, 'P', 'W', some ("6/40"), none⟩
          ⟨"WiFi", "📶", [("ch", "6"), ("bw", "40 MHz")], "", false⟩) + 4)
        '─') ++ "┐").data ++ post :=
  (c7_ascii_border ⟨false, 'P', 'W', some ("6/40"), none⟩
    ⟨"WiFi", "📶", [("ch", "6"), ("bw", "40 MHz")], "", false⟩ rfl).1

/-! ### Claim C10 -/

/-- No registry entry defines a description and none of the display names
contains a newline. -/
theorem registry_name_clean (l p : Char) (pr : RAMPDescriptor.ProtoInfo)
    (h : RAMPDescriptor.registryLookup l p = some pr) :
    ∀ c ∈ pr.name.data, decide (c ≠ '\n') = true := by
  unfold RAMPDescriptor.registryLookup at h
  split at h <;> first
    | (cases h; decide)
    | cases h

/-- Claim C10: whenever the descriptive formatter renders a recognized
node (the field formatter succeeded), the lookup defaults the description
to the empty string, so the first output line is exactly the protocol
name followed by `" ()"`. -/
theorem c10_description_empty (n : RAMPNode)
    (info : RAMPDescriptor.NodeInfo)
    (h : RAMPDescriptor.get_info n = some info) :
    info.description = "" ∧
      (RAMPFormatter.format n).data.takeWhile (fun c => c ≠ '\n') =
        (info.name ++ " ()").data := by
  have hname : ∀ c ∈ info.name.data, decide (c ≠ '\n') = true := by
    unfold RAMPDescriptor.get_info at h
    split at h
    · cases h
    · rename_i pr hpr
      dsimp only at h
      split at h
      · cases h
      · rename_i fps hf
        cases h
        exact registry_name_clean _ _ _ hpr
  have hdesc : info.description = "" := by
    unfold RAMPDescriptor.get_info at h
    split at h
    · cases h
    · rename_i pr hpr
      dsimp only at h
      split at h
      · cases h
      · rename_i fps hf
        cases h
        rfl
  refine ⟨hdesc, ?_⟩
  unfold RAMPFormatter.format
  rw [h]
  dsimp only
  obtain ⟨post, hpost, hshape⟩ := joinLines_head
    (info.name ++ " (" ++ info.description ++ ")")
    (List.map (fun kv => kv.1 ++ ": " ++ kv.2) info.params ++
      match n.meta with
      | some m => if m = "" then [] else ["ID: " ++ m]
      | none => [])
  rw [List.cons_append, hpost]
  have hp1 : ((" (" : String)).data = [' ', '('] := rfl
  have hp2 : ((")" : String)).data = [')'] := rfl
  have hp3 : (("" : String)).data = [] := rfl
  have hp4 : ((" ()" : String)).data = [' ', '(', ')'] := rfl
  have hline : ∀ c ∈ (info.name ++ " (" ++ info.description ++ ")").data,
      (fun c => decide (c ≠ '\n')) c = true := by
    intro c hc
    rw [hdesc] at hc
    rw [String.data_append, String.data_append, String.data_append,
      hp1, hp2, hp3] at hc
    simp only [List.mem_append, List.append_nil, List.mem_cons,
      List.not_mem_nil, or_false] at hc
    rcases hc with (hc | hc) | hc
    · exact hname c hc
    · rcases hc with rfl | rfl <;> decide
    · subst hc
      decide
  rw [takeWhile_append_all _ _ _ hline]
  have hpostTW : post.takeWhile (fun c => decide (c ≠ '\n')) = [] := by
    rcases hshape with rfl | ⟨post2, rfl⟩
    · rfl
    · simp
  rw [hpostTW, List.append_nil, hdesc]
  rw [String.data_append, String.data_append, String.data_append,
    String.data_append, hp1, hp2, hp3, hp4]
  simp

/-- Witness for C10: the first formatted line of a concrete WiFi node is
`"WiFi ()"`. -/
theorem c10_witness :
    (⟨"WiFi", "📶", [("ch", "6"), ("bw", "40 MHz")], "", false⟩ :
      RAMPDescriptor.NodeInfo).description = "" ∧
      (RAMPFormatter.format
        ⟨false, 'P', 'W', some ("6/40"), none⟩).data.takeWhile
        (fun c => c ≠ '\n') = (("WiFi" : String) ++ " ()").data :=
  c10_description_empty ⟨false, 'P', 'W', some ("6/40"), none⟩
    ⟨"WiFi", "📶", [("ch", "6"), ("bw", "40 MHz")], "", false⟩ rfl

end Ramp
